import Mathlib

/-!
# TaskManager: the process table model

A shallow embedding of `src/ProcessTableModel.cpp` and of
`MainWindow::setupStaticInformation` (`src/Mainwindow.cpp`).

* The registry state (`processList`, `pidSet`, `sortColumn`, `sortOrder`,
  `maxProperty`) is a structure that is passed explicitly; the Qt signals a
  member function emits are appended to the ghost field `emitted`, together
  with a record of every change made to `processList`.
* Between two calls of `refresh` a `QList<Process *>` is the `List Process` of
  the objects it points to. Inside the loop of `refresh` that removes from the
  list it iterates over, it is the Qt 5 representation: an array of pointers
  with a `begin` and an `end` position, the pointers being handles into a
  table of objects in which a deleted object leaves a hole. An operation that
  dereferences a deleted object has no result (`none`).
* `QSet` is a `Finset Int`.
* A C++ `float` is not-a-number, an infinity, or the rational it denotes; the
  conversion of an unsigned integer rounds to 24 significant bits.
* What the operating system answers (the `/proc` listing, the first sample of
  a new process, the outcome of `Process::refresh()`) is an explicit input.
-/

namespace TaskManager

/-! ## C++ floats -/

/-- A C++ `float`, as far as comparisons can tell. -/
inductive CFloat where
  | nan
  | negInf
  | finite (x : ℚ)
  | posInf
deriving DecidableEq

/-- The operator `<` on two `float`s: false as soon as one side is not a number. -/
def CFloat.lt : CFloat → CFloat → Bool
  | .nan, _ => false
  | _, .nan => false
  | .negInf, .negInf => false
  | .negInf, _ => true
  | .finite _, .negInf => false
  | .finite x, .finite y => decide (x < y)
  | .finite _, .posInf => true
  | .posInf, _ => false

/-- The operator `<=` on two `float`s. -/
def CFloat.le (a b : CFloat) : Bool := a.lt b || (a != CFloat.nan && a == b)

/-- The distance between neighbouring `float`s around `n`: the least power of two
`u` with `n / u < 2 ^ 24`; `steps` bounds the exponent. -/
def floatUlp : Nat → Nat → Nat
  | 0, _ => 1
  | steps + 1, n => if n < 2 ^ 24 then 1 else 2 * floatUlp steps (n / 2)

/-- The conversion of an `unsigned int` to `float`: the nearest multiple of the
distance between neighbouring floats, a tie going to the even multiple. Up to
`2 ^ 24` the conversion is exact. -/
def uintToFloat (n : Nat) : Nat :=
  let u := floatUlp 8 n
  if 2 * (n % u) > u ∨ (2 * (n % u) = u ∧ n / u % 2 = 1) then (n / u + 1) * u
  else n / u * u

/-! ## Process -/

/-- Modelled from the spec: the `Process::Property` enumeration (`Process.h` is
not part of the sources). The spec lists the fixed columns in the order
Process Name, PID, CPU, Memory, Disk, Network; `headerData`, `data` and the
six entries of `maxProperty` use the same order. -/
def Process.ProcessName : Int := 0

/-- Modelled from the spec: second member of the `Process::Property` enumeration. -/
def Process.ID : Int := 1

/-- Modelled from the spec: third member of the `Process::Property` enumeration. -/
def Process.CPUUsage : Int := 2

/-- Modelled from the spec: fourth member of the `Process::Property` enumeration. -/
def Process.MemoryUsage : Int := 3

/-- Modelled from the spec: fifth member of the `Process::Property` enumeration. -/
def Process.DiskUsage : Int := 4

/-- Modelled from the spec: sixth member of the `Process::Property` enumeration. -/
def Process.NetworkUsage : Int := 5

/-- Modelled from the spec: the number of members of `Process::Property`. -/
def Process.PropertyCount : Int := 6

/-- Modelled from the spec: the derived metrics of one sample of a process: the
CPU utilisation in percent, the disk and the network throughput, each as the
`float` that `QVariant::toFloat()` returns for it, and the resident memory, an
unsigned number of kilobytes (`data` reads it with `toUInt()`). -/
structure Usage where
  cpu : CFloat
  memory : Nat
  disk : CFloat
  network : CFloat
deriving DecidableEq

/-- Modelled from the spec: a `Process` object (`Process.h` and `Process.cpp` are
not part of the sources): the PID it was created with, its display name, read
once at creation, and its current sample. -/
structure Process where
  pid : Int
  name : String
  usage : Usage
deriving DecidableEq

/-- Modelled from the spec: `process->property(column).toUInt()` for the two
columns that hold an unsigned 32-bit integer: the PID (`refresh` reads it so)
and the memory in kilobytes (`data` reads it so). -/
def Process.toUInt (p : Process) (column : Int) : Nat :=
  if column = Process.ID then (p.pid % 2 ^ 32).toNat
  else if column = Process.MemoryUsage then p.usage.memory % 2 ^ 32
  else 0

/-- Modelled from the spec: `process->property(column).toFloat()` for the numeric
columns: the conversion of the unsigned integer for the PID and the memory,
the `float` itself for the other three. The comparators never take this path
for the name column; there, and for a column outside the enumeration (an
invalid `QVariant`), the value is 0. -/
def Process.toFloat (p : Process) (column : Int) : CFloat :=
  if column = Process.ID then CFloat.finite (uintToFloat (p.toUInt Process.ID))
  else if column = Process.CPUUsage then p.usage.cpu
  else if column = Process.MemoryUsage then
    CFloat.finite (uintToFloat (p.toUInt Process.MemoryUsage))
  else if column = Process.DiskUsage then p.usage.disk
  else if column = Process.NetworkUsage then p.usage.network
  else CFloat.finite 0

/-! ## Qt strings -/

/-- Case folding of one character as a `Qt::CaseInsensitive` comparison applies
it, for the ASCII letters: an upper-case letter is compared as its lower-case
form. -/
def foldCase (c : Char) : Int := (c.toLower.toNat : Int)

/-- Comparison loop of `QString::compare(other, Qt::CaseInsensitive)`: the
difference of the first pair of folded characters that differ; when one string
is a prefix of the other, the shorter one is smaller. -/
def ucstricmp : List Char → List Char → Int
  | [], [] => 0
  | [], _ :: _ => -1
  | _ :: _, [] => 1
  | a :: as, b :: bs =>
    if foldCase a - foldCase b ≠ 0 then foldCase a - foldCase b else ucstricmp as bs

/-- The call `l.compare(r, Qt::CaseInsensitive)`. -/
def compareCaseInsensitive (l r : String) : Int := ucstricmp l.toList r.toList

/-! ## Sorting -/

/-- The Qt enumeration `Qt::SortOrder`. -/
inductive SortOrder where
  | AscendingOrder
  | DescendingOrder
deriving DecidableEq

/-- What a member function does that an observer of the model can see: the two
layout signals, and (ghost) the changes made to `processList`. -/
inductive Event where
  | layoutAboutToBeChanged
  | layoutChanged
  | appended (pid : Int)
  | removed (pid : Int)
  | sorted
deriving DecidableEq

/-- Whether an event is one of the two layout signals. -/
def Event.isSignal : Event → Bool
  | .layoutAboutToBeChanged => true
  | .layoutChanged => true
  | _ => false

/-- The lambda passed to `std::sort` when `order == Qt::AscendingOrder`. -/
def ascendingLess (column : Int) (left right : Process) : Bool :=
  if column = Process.ProcessName then
    decide (compareCaseInsensitive left.name right.name < 0)
  else
    (left.toFloat column).lt (right.toFloat column)

/-- The lambda passed to `std::sort` in the other branch. -/
def descendingLess (column : Int) (left right : Process) : Bool :=
  if column = 0 then
    decide (compareCaseInsensitive left.name right.name > 0)
  else
    (right.toFloat column).lt (left.toFloat column)

/-- The call `std::sort(first, last, comp)` for a `comp` that is a strict weak
ordering of the elements, which the standard requires; it then fixes the
result up to the order of equivalent elements. The model is insertion sort,
which is what the GNU implementation runs on ranges of at most 16 elements:
every element is moved left past the elements it is `comp`-less than, and
equivalent elements stay in their order. -/
def stdSort {α : Type} (comp : α → α → Bool) (l : List α) : List α :=
  l.insertionSort (fun a b => comp b a = false)

/-- The state of a `ProcessTableModel`, and in `emitted` the events so far. -/
structure ProcessTableModel where
  processList : List Process
  pidSet : Finset Int
  sortColumn : Int
  sortOrder : SortOrder
  maxProperty : List Int
  emitted : List Event
deriving DecidableEq

/-- Record one event. -/
def ProcessTableModel.emit (m : ProcessTableModel) (e : Event) : ProcessTableModel :=
  { m with emitted := m.emitted ++ [e] }

/-- The comparator `ProcessTableModel::sort` selects for a key. -/
def comparator (column : Int) (order : SortOrder) : Process → Process → Bool :=
  if order = SortOrder.AscendingOrder then ascendingLess column else descendingLess column

/-- The member function `ProcessTableModel::sort(column, order)`. -/
def ProcessTableModel.sort (column : Int) (order : SortOrder) (m : ProcessTableModel) :
    ProcessTableModel :=
  let m := m.emit Event.layoutAboutToBeChanged
  let m :=
    if order = SortOrder.AscendingOrder then
      { m with processList := stdSort (ascendingLess column) m.processList }.emit Event.sorted
    else
      { m with processList := stdSort (descendingLess column) m.processList }.emit Event.sorted
  m.emit Event.layoutChanged

/-- The member function `ProcessTableModel::sortByColumn(column, order)`. -/
def ProcessTableModel.sortByColumn (column : Int) (order : SortOrder) (m : ProcessTableModel) :
    ProcessTableModel :=
  if column < 0 ∨ column ≥ Process.PropertyCount then
    m
  else
    ({ m with sortColumn := column, sortOrder := order }).sort column order

/-! ## Refresh -/

/-- The call `QString::toInt(&ok)` in base 10: surrounding white space, an optional
sign, at least one decimal digit, and a value that fits a 32-bit `int`; `none`
stands for `ok == false`. -/
def toInt (entry : String) : Option Int :=
  let body := ((entry.toList.dropWhile Char.isWhitespace).reverse.dropWhile
    Char.isWhitespace).reverse
  let negative := body.head? = some '-'
  let digits := if body.head? = some '-' ∨ body.head? = some '+' then body.tail else body
  if digits = [] ∨ digits.all Char.isDigit = false then none
  else
    let magnitude : Int := digits.foldl (fun acc c => 10 * acc + ((c.toNat : Int) - 48)) 0
    let value : Int := if negative then -magnitude else magnitude
    if -2147483648 ≤ value ∧ value ≤ 2147483647 then some value else none

/-- What the operating system answers during one refresh: the listing of `/proc`
(`QDir::entryList`), the name and baseline sample a `new Process(uid, this)`
reads, and the outcome of `Process::refresh()` on a tracked process, where
`none` stands for the return value `false` (the process does not exist any
more) and `some u` for `true` with `u` the new sample. -/
structure Os where
  entries : List String
  create : Int → String × Usage
  resample : Process → Option Usage

/-- The object `new Process(uid, this)`. -/
def Os.newProcess (os : Os) (uid : Int) : Process :=
  { pid := uid, name := (os.create uid).1, usage := (os.create uid).2 }

/-- First loop of `ProcessTableModel::refresh`, over the entries of `/proc`. -/
def discover (os : Os) : List String → ProcessTableModel → ProcessTableModel
  | [], m => m
  | entry :: rest, m =>
    match toInt entry with
    | some uid =>
      if uid ∉ m.pidSet then
        discover os rest
          ({ m with processList := m.processList ++ [os.newProcess uid],
                    pidSet := insert uid m.pidSet }.emit (Event.appended uid))
      else discover os rest m
    | none => discover os rest m

/-! ### The list inside the second loop -/

/-- The private data of a Qt 5 `QList<Process *>`: an array of pointers, of which
the positions from `begin` up to `finish` (the member `end`) are the list. A
pointer is the handle of an object. -/
structure QListData where
  array : List Nat
  begin : Nat
  finish : Nat
deriving DecidableEq

/-- The call `memmove(array + dst, array + src, n * sizeof(void *))`. -/
def memmove (array : List Nat) (dst src n : Nat) : List Nat :=
  array.take dst ++ (array.drop src).take n ++ array.drop (dst + n)

/-- The list a `QListData` stands for. -/
def QListData.toList (d : QListData) : List Nat :=
  (d.array.drop d.begin).take (d.finish - d.begin)

/-- The function `QListData::remove(int i)` of Qt 5: the shorter side of the
array is moved over the removed position, and `begin` or `end` follows; the
position the moved side leaves keeps its old content. -/
def QListData.remove (d : QListData) (i : Nat) : QListData :=
  if i < d.finish - (i + d.begin) then
    { d with array := memmove d.array (d.begin + 1) d.begin i, begin := d.begin + 1 }
  else
    { d with array := memmove d.array (i + d.begin) (i + d.begin + 1)
                        (d.finish - (i + d.begin) - 1),
             finish := d.finish - 1 }

/-- The call `QList::removeOne(t)`: the first position of `t`, if there is one, is
removed. -/
def QListData.removeOne (d : QListData) (t : Nat) : QListData :=
  if d.toList.indexOf t < d.toList.length then d.remove (d.toList.indexOf t) else d

/-- The state of the second loop of `refresh`: the list, the objects the handles
stand for (`none` for a deleted one), `pidSet` and the events so far. -/
structure Sweep where
  list : QListData
  objects : List (Option Process)
  pidSet : Finset Int
  emitted : List Event

/-- The state in which the second loop starts: the pointers of `processList` fill
the array. -/
def Sweep.start (m : ProcessTableModel) : Sweep :=
  { list := { array := List.range m.processList.length, begin := 0,
              finish := m.processList.length },
    objects := m.processList.map some, pidSet := m.pidSet, emitted := m.emitted }

/-- The `processList` a loop state stands for. -/
def Sweep.processList (s : Sweep) : List Process :=
  s.list.toList.filterMap (fun t => (s.objects[t]?).join)

/-- Second loop of `ProcessTableModel::refresh`, over `processList`. The
range-based `for` takes `begin()` and `end()` once, before the first
iteration: the iterator is the array position `it`, and `remaining` is its
distance to that `end()`, whatever is removed meanwhile. An iteration reads
the pointer at `it` (a position of the array the loop started with), also
when that position is no longer part of the list, and calls `Process::refresh()` on its object, which replaces the sample of a
process that still exists; for one that does not, the PID leaves `pidSet`,
`removeOne` takes the pointer out of the list and the object is deleted. When
the object at `it` has been deleted before, the call has no defined outcome
and the loop has no result. -/
def removeLoop (os : Os) : Nat → Nat → Sweep → Option Sweep
  | 0, _, s => some s
  | remaining + 1, it, s =>
    match s.list.array[it]? with
    | none => none
    | some t =>
      match (s.objects[t]?).join with
      | none => none
      | some process =>
        match os.resample process with
        | some usage =>
          removeLoop os remaining (it + 1)
            { s with objects := s.objects.set t (some { process with usage := usage }) }
        | none =>
          removeLoop os remaining (it + 1)
            { list := s.list.removeOne t,
              objects := s.objects.set t none,
              pidSet := s.pidSet.erase process.pid,
              emitted := s.emitted ++ [Event.removed process.pid] }

/-- The member function `ProcessTableModel::refresh()`; `none` when its second
loop dereferences a deleted `Process`. -/
def ProcessTableModel.refresh (os : Os) (m : ProcessTableModel) : Option ProcessTableModel :=
  let m := m.emit Event.layoutAboutToBeChanged
  let m := discover os os.entries m
  match removeLoop os m.processList.length 0 (Sweep.start m) with
  | none => none
  | some s =>
    let m := { m with processList := s.processList, pidSet := s.pidSet, emitted := s.emitted }
    let m := m.sortByColumn m.sortColumn m.sortOrder
    some (m.emit Event.layoutChanged)

/-- The constructor `ProcessTableModel::ProcessTableModel`. -/
def ProcessTableModel.construct (os : Os) : Option ProcessTableModel :=
  ProcessTableModel.refresh os
    { processList := [], pidSet := ∅, sortColumn := -1,
      sortOrder := SortOrder.AscendingOrder,
      maxProperty := [0, 0, 100, 1024 * 128, 50, 1], emitted := [] }

/-! ## Cell text -/

/-- The call `QString::number(double(n), 'f', 1)` on a whole number `n`: its
decimal digits and one decimal place, which is 0. -/
def numberF1 (n : Nat) : String := toString n ++ ".0"

/-- The `case Process::MemoryUsage` of `ProcessTableModel::data` for the display
role. `memory` is an `unsigned int`, and so are both quotients. -/
def memoryText (memory : Nat) : String :=
  if memory < 1024 then toString memory ++ " KB"
  else if memory < 1024 * 1024 then numberF1 (memory / 1024) ++ " MB"
  else numberF1 (memory / (1024 * 1024)) ++ " GB"

/-- A quotient `num / den` rounded to one decimal place (half up), printed. -/
def oneDecimal (num den : Nat) : String :=
  toString ((20 * num + den) / (2 * den) / 10) ++ "." ++
    toString ((20 * num + den) / (2 * den) % 10)

/-- The memory cell as the specification words it: the value itself below 1024,
then the value divided by 1024, and by 1024 * 1024, rounded to one decimal. -/
def memoryTextSpec (memory : Nat) : String :=
  if memory < 1024 then toString memory ++ " KB"
  else if memory < 1024 * 1024 then oneDecimal memory 1024 ++ " MB"
  else oneDecimal memory (1024 * 1024) ++ " GB"

/-! ## Static information -/

/-- The text that follows the first occurrence of `pat`. -/
def afterFirst (pat : List Char) : List Char → Option (List Char)
  | [] => if pat = [] then some [] else none
  | c :: cs =>
    if pat.isPrefixOf (c :: cs) then some ((c :: cs).drop pat.length) else afterFirst pat cs

/-- The call `rx.match(content).captured(1)` for a pattern `literal(.*)\n`: the
dot does not match a line feed, so the group is the rest of the line of the
first occurrence of the literal text; without a match it is the empty string. -/
def captured1 (literal : String) (content : List Char) : List Char :=
  match afterFirst literal.toList content with
  | none => []
  | some rest => if '\n' ∈ rest then rest.takeWhile (fun c => c ≠ '\n') else []

/-- Worker of `split`: `skip` characters of a separator are still to be passed,
`cur` is the current part, reversed. -/
def splitAux (sep : List Char) : List Char → Nat → List Char → List (List Char)
  | [], _, cur => [cur.reverse]
  | _ :: cs, skip + 1, cur => splitAux sep cs skip cur
  | c :: cs, 0, cur =>
    if sep.isPrefixOf (c :: cs) then cur.reverse :: splitAux sep cs (sep.length - 1) []
    else splitAux sep cs 0 (c :: cur)

/-- The call `QString::split(sep)` for a non-empty separator, empty parts kept. -/
def split (sep : String) (s : List Char) : List (List Char) := splitAux sep.toList s 0 []

/-- The four labels `setupStaticInformation` fills from `/proc/cpuinfo`. -/
structure StaticInformation where
  cpuName : List Char
  maxSpeed : List Char
  cores : List Char
  logicalProcessors : List Char
deriving DecidableEq

/-- The block of `MainWindow::setupStaticInformation` that runs once
`/proc/cpuinfo` is open, on the text read from it. `QList::at(i)` requires
`i` to be a valid position; `none` stands for a call that is not. -/
def setupStaticInformation (content : String) : Option StaticInformation :=
  let modelName := split " @ " (captured1 "model name\t: " content.toList)
  match modelName.get? 0 with
  | none => none
  | some cpuName =>
    match modelName.get? 1 with
    | none => none
    | some maxSpeed =>
      some { cpuName := cpuName, maxSpeed := maxSpeed,
             cores := captured1 "cpu cores\t: " content.toList,
             logicalProcessors := captured1 "siblings\t: " content.toList }

/-! ## The registry invariant and example inputs -/

/-- Registry invariant: the processes of `processList` have pairwise different
PIDs, and `pidSet` is the set of these PIDs. -/
def Invariant (m : ProcessTableModel) : Prop :=
  (m.processList.map Process.pid).Nodup ∧
    m.pidSet = (m.processList.map Process.pid).toFinset

instance : DecidablePred Invariant := fun m => by
  unfold Invariant
  infer_instance

/-- The layout signals emitted between the state `before` and the state `after`. -/
def signalsBetween (before after : ProcessTableModel) : List Event :=
  (after.emitted.drop before.emitted.length).filter Event.isSignal

/-- A sample without load. -/
def idle : Usage :=
  { cpu := CFloat.finite 0, memory := 0, disk := CFloat.finite 0, network := CFloat.finite 0 }

/-- A tick at which `/proc` lists the processes 1 to 6 and all of them exist. -/
def tickAllAlive : Os :=
  { entries := ["1", "2", "3", "4", "5", "6", "self"],
    create := fun _ => ("task", idle),
    resample := fun p => some p.usage }

/-- The next tick: the processes 4 and 5 have exited. -/
def tickTwoGone : Os :=
  { entries := ["1", "2", "3", "6", "self"],
    create := fun _ => ("task", idle),
    resample := fun p => if p.pid = 4 ∨ p.pid = 5 then none else some p.usage }

/-- A tick at which the processes 4 and 6 have exited. -/
def tickFourSixGone : Os :=
  { entries := ["1", "2", "3", "5", "self"],
    create := fun _ => ("task", idle),
    resample := fun p => if p.pid = 4 ∨ p.pid = 6 then none else some p.usage }

/-- A tick at which the processes 5 and 6 have exited. -/
def tickFiveSixGone : Os :=
  { entries := ["1", "2", "3", "4", "self"],
    create := fun _ => ("task", idle),
    resample := fun p => if p.pid = 5 ∨ p.pid = 6 then none else some p.usage }

/-- A tick at which the processes 1 and 2 have exited. -/
def tickOneTwoGone : Os :=
  { entries := ["3", "4", "5", "6", "self"],
    create := fun _ => ("task", idle),
    resample := fun p => if p.pid = 1 ∨ p.pid = 2 then none else some p.usage }

/-- A first tick at which `/proc` still lists the processes 1 to 6, and 4 and 6
exit before they are sampled again. -/
def tickVanishing : Os :=
  { entries := ["1", "2", "3", "4", "5", "6", "self"],
    create := fun _ => ("task", idle),
    resample := fun p => if p.pid = 4 ∨ p.pid = 6 then none else some p.usage }

/-- The registry after a construction at `tickAllAlive`: the processes 1 to 6, in
the order of the enumeration, and no sort key. -/
def sixTracked : ProcessTableModel :=
  { processList :=
      [{ pid := 1, name := "task", usage := idle }, { pid := 2, name := "task", usage := idle },
       { pid := 3, name := "task", usage := idle }, { pid := 4, name := "task", usage := idle },
       { pid := 5, name := "task", usage := idle }, { pid := 6, name := "task", usage := idle }],
    pidSet := {1, 2, 3, 4, 5, 6}, sortColumn := -1, sortOrder := SortOrder.AscendingOrder,
    maxProperty := [0, 0, 100, 1024 * 128, 50, 1],
    emitted := [Event.layoutAboutToBeChanged, Event.appended 1, Event.appended 2,
      Event.appended 3, Event.appended 4, Event.appended 5, Event.appended 6,
      Event.layoutChanged] }

/-- A sample with the CPU value `cpu` and nothing else. -/
def cpuOnly (cpu : ℚ) : Usage :=
  { cpu := CFloat.finite cpu, memory := 0, disk := CFloat.finite 0, network := CFloat.finite 0 }

/-- Three processes with the PIDs 10, 20, 30 and the CPU values 5, 50, 1. -/
def cpuExample : ProcessTableModel :=
  { processList :=
      [{ pid := 10, name := "init", usage := cpuOnly 5 },
       { pid := 20, name := "bash", usage := cpuOnly 50 },
       { pid := 30, name := "cron", usage := cpuOnly 1 }],
    pidSet := {10, 20, 30}, sortColumn := -1, sortOrder := SortOrder.AscendingOrder,
    maxProperty := [0, 0, 100, 1024 * 128, 50, 1], emitted := [] }

/-- A sample with `memory` kilobytes of resident memory and no load. -/
def memoryOnly (memory : Nat) : Usage :=
  { cpu := CFloat.finite 0, memory := memory, disk := CFloat.finite 0,
    network := CFloat.finite 0 }

/-- Two processes that hold a little more than 16 GiB: 16777217 and 16777216
kilobytes. -/
def largeMemoryExample : ProcessTableModel :=
  { processList :=
      [{ pid := 1, name := "db", usage := memoryOnly 16777217 },
       { pid := 2, name := "vm", usage := memoryOnly 16777216 }],
    pidSet := {1, 2}, sortColumn := -1, sortOrder := SortOrder.AscendingOrder,
    maxProperty := [0, 0, 100, 1024 * 128, 50, 1], emitted := [] }

/-! # Theorems -/

/-! ## The comparators -/

theorem ucstricmp_swap (a b : List Char) :
    (ucstricmp a b < 0 ↔ 0 < ucstricmp b a) ∧ (ucstricmp a b = 0 ↔ ucstricmp b a = 0) := by
  induction a generalizing b with
  | nil => cases b <;> simp [ucstricmp]
  | cons x xs ih =>
    cases b with
    | nil => simp [ucstricmp]
    | cons y ys =>
      simp only [ucstricmp]
      have h := ih ys
      split_ifs with h1 h2 h2
      · constructor <;> constructor <;> intro h3 <;> omega
      · exfalso; omega
      · exfalso; omega
      · exact h

theorem ucstricmp_eq_zero_of_fold_eq (a b : List Char)
    (h : a.map foldCase = b.map foldCase) : ucstricmp a b = 0 := by
  induction a generalizing b with
  | nil => cases b <;> simp_all [ucstricmp]
  | cons x xs ih =>
    cases b with
    | nil => simp at h
    | cons y ys =>
      simp only [List.map_cons, List.cons.injEq] at h
      simp only [ucstricmp]
      rw [if_neg (by omega)]
      exact ih ys h.2

theorem CFloat.lt_asymm (a b : CFloat) (h : a.lt b = true) : b.lt a = false := by
  cases a <;> cases b <;> simp_all [CFloat.lt]
  exact le_of_lt h

theorem CFloat.not_lt_trans (a b c : CFloat) (ha : a ≠ CFloat.nan) (hb : b ≠ CFloat.nan)
    (hc : c ≠ CFloat.nan) (hab : b.lt a = false) (hbc : c.lt b = false) : c.lt a = false := by
  cases a <;> cases b <;> cases c <;> simp_all [CFloat.lt]
  exact le_trans hab hbc

theorem CFloat.le_of_not_lt (a b : CFloat) (ha : a ≠ CFloat.nan) (hb : b ≠ CFloat.nan)
    (h : b.lt a = false) : a.le b = true := by
  cases a <;> cases b <;> simp_all [CFloat.lt, CFloat.le]
  exact lt_or_eq_of_le h

theorem CFloat.le_finite (x y : ℚ) :
    (CFloat.finite x).le (CFloat.finite y) = true ↔ x ≤ y := by
  simp [CFloat.lt, CFloat.le, le_iff_lt_or_eq]

theorem uintToFloat_exact (n : Nat) (h : n < 2 ^ 24) : uintToFloat n = n := by
  have hu : floatUlp 8 n = 1 := by
    unfold floatUlp
    rw [if_pos h]
  unfold uintToFloat
  simp [hu, Nat.mod_one]

theorem stdSort_perm {α : Type} (comp : α → α → Bool) (l : List α) :
    (stdSort comp l).Perm l :=
  List.perm_insertionSort _ l

theorem orderedInsert_sorted {α : Type} (comp : α → α → Bool) (P : α → Prop)
    (htotal : ∀ a b, P a → P b → comp b a = false ∨ comp a b = false)
    (htrans : ∀ a b c, P a → P b → P c → comp b a = false → comp c b = false →
      comp c a = false)
    (a : α) (ha : P a) (l : List α) (hl : ∀ b ∈ l, P b)
    (hs : l.Pairwise (fun a b => comp b a = false)) :
    (l.orderedInsert (fun a b => comp b a = false) a).Pairwise
      (fun a b => comp b a = false) := by
  induction l with
  | nil => simp
  | cons b l ih =>
    have hb : P b := hl b (List.mem_cons_self _ _)
    have hl2 : ∀ x ∈ l, P x := fun x hx => hl x (List.mem_cons_of_mem _ hx)
    rw [List.pairwise_cons] at hs
    by_cases hab : comp b a = false
    · rw [List.orderedInsert, if_pos hab]
      refine List.pairwise_cons.2 ⟨?_, List.pairwise_cons.2 hs⟩
      intro x hx
      rcases List.mem_cons.1 hx with rfl | hx
      · exact hab
      · exact htrans a b x ha hb (hl2 x hx) hab (hs.1 x hx)
    · rw [List.orderedInsert, if_neg hab]
      refine List.pairwise_cons.2 ⟨?_, ih hl2 hs.2⟩
      intro x hx
      rcases (List.mem_orderedInsert _).1 hx with rfl | hx
      · rcases htotal x b ha hb with h | h
        · exact absurd h hab
        · exact h
      · exact hs.1 x hx

theorem stdSort_sorted {α : Type} (comp : α → α → Bool) (P : α → Prop)
    (htotal : ∀ a b, P a → P b → comp b a = false ∨ comp a b = false)
    (htrans : ∀ a b c, P a → P b → P c → comp b a = false → comp c b = false →
      comp c a = false)
    (l : List α) (hl : ∀ a ∈ l, P a) :
    (stdSort comp l).Pairwise (fun a b => comp b a = false) := by
  unfold stdSort
  induction l with
  | nil => simp
  | cons a l ih =>
    rw [List.insertionSort]
    refine orderedInsert_sorted comp P htotal htrans a (hl a (List.mem_cons_self _ _)) _ ?_
      (ih (fun x hx => hl x (List.mem_cons_of_mem _ hx)))
    intro b hb
    exact hl b (List.mem_cons_of_mem _ ((List.mem_insertionSort _).1 hb))

theorem sort_processList (column : Int) (order : SortOrder) (m : ProcessTableModel) :
    (m.sort column order).processList = stdSort (comparator column order) m.processList := by
  unfold ProcessTableModel.sort comparator ProcessTableModel.emit
  split_ifs <;> rfl

/-! ## `sort` -/

/-- C1, as stated, fails: two processes that hold 16777217 and 16777216 kilobytes
convert to the same `float`, so the ascending comparator orders neither before
the other and `sort` by memory leaves them as they stand, the larger value
first. -/
theorem sort_ties_in_float :
    (largeMemoryExample.sort Process.MemoryUsage SortOrder.AscendingOrder).processList.map
      (fun p => p.toUInt Process.MemoryUsage) = [16777217, 16777216] ∧
    ¬ (largeMemoryExample.sort Process.MemoryUsage SortOrder.AscendingOrder).processList.Pairwise
      (fun a b => a.toUInt Process.MemoryUsage ≤ b.toUInt Process.MemoryUsage) ∧
    (largeMemoryExample.processList.map (fun p => p.toFloat Process.MemoryUsage)
      = [CFloat.finite 16777216, CFloat.finite 16777216]) := by
  decide

/-- A comparator that meets a value that is not a number is no strict weak
ordering: the value is equivalent to 0 and to 1, which are not equivalent. -/
theorem ascendingLess_nan :
    ascendingLess Process.CPUUsage
      { pid := 1, name := "a", usage := cpuOnly 0 }
      { pid := 2, name := "b", usage := { idle with cpu := CFloat.nan } } = false ∧
    ascendingLess Process.CPUUsage
      { pid := 2, name := "b", usage := { idle with cpu := CFloat.nan } }
      { pid := 1, name := "a", usage := cpuOnly 0 } = false ∧
    ascendingLess Process.CPUUsage
      { pid := 2, name := "b", usage := { idle with cpu := CFloat.nan } }
      { pid := 3, name := "c", usage := cpuOnly 1 } = false ∧
    ascendingLess Process.CPUUsage
      { pid := 3, name := "c", usage := cpuOnly 1 }
      { pid := 2, name := "b", usage := { idle with cpu := CFloat.nan } } = false ∧
    ascendingLess Process.CPUUsage
      { pid := 1, name := "a", usage := cpuOnly 0 }
      { pid := 3, name := "c", usage := cpuOnly 1 } = true := by
  decide

/-- C1, amended: for a numeric column (PID, CPU, memory, disk, network) in which
no process has a value that is not a number, `sort(column, order)` leaves
`processList` a rearrangement of the same processes in which the `float`
values `property(column).toFloat()` are non-decreasing for ascending order and
non-increasing for descending order. For the PID and the memory column, if
all values are below `2 ^ 24`, the unsigned values themselves are so
ordered. -/
theorem sort_numeric_column (m : ProcessTableModel) (column : Int)
    (hcolumn : column = Process.ID ∨ column = Process.CPUUsage ∨
      column = Process.MemoryUsage ∨ column = Process.DiskUsage ∨
      column = Process.NetworkUsage)
    (hnan : ∀ p ∈ m.processList, p.toFloat column ≠ CFloat.nan) :
    ((m.sort column SortOrder.AscendingOrder).processList.Perm m.processList ∧
      (m.sort column SortOrder.AscendingOrder).processList.Pairwise
        (fun a b => (a.toFloat column).le (b.toFloat column) = true) ∧
      (m.sort column SortOrder.DescendingOrder).processList.Perm m.processList ∧
      (m.sort column SortOrder.DescendingOrder).processList.Pairwise
        (fun a b => (b.toFloat column).le (a.toFloat column) = true)) ∧
    ((column = Process.ID ∨ column = Process.MemoryUsage) →
      (∀ p ∈ m.processList, p.toUInt column < 2 ^ 24) →
      (m.sort column SortOrder.AscendingOrder).processList.Pairwise
        (fun a b => a.toUInt column ≤ b.toUInt column) ∧
      (m.sort column SortOrder.DescendingOrder).processList.Pairwise
        (fun a b => a.toUInt column ≥ b.toUInt column)) := by
  have hne : column ≠ 0 := by
    unfold Process.ID Process.CPUUsage Process.MemoryUsage Process.DiskUsage
      Process.NetworkUsage at hcolumn
    omega
  have hasc : (m.sort column SortOrder.AscendingOrder).processList.Pairwise
      (fun a b => (a.toFloat column).le (b.toFloat column) = true) := by
    rw [sort_processList]
    have hp : ∀ p ∈ stdSort (comparator column SortOrder.AscendingOrder) m.processList,
        p.toFloat column ≠ CFloat.nan :=
      fun p hp => hnan p ((stdSort_perm _ _).mem_iff.1 hp)
    refine (stdSort_sorted (comparator column SortOrder.AscendingOrder)
      (fun p => p.toFloat column ≠ CFloat.nan) ?_ ?_ m.processList hnan).imp_of_mem ?_
    · intro a b _ _
      simp only [comparator, ascendingLess, Process.ProcessName, hne, if_true, if_false]
      cases h : (a.toFloat column).lt (b.toFloat column)
      · exact Or.inr rfl
      · exact Or.inl (CFloat.lt_asymm _ _ h)
    · intro a b c ha hb hc
      simp only [comparator, ascendingLess, Process.ProcessName, hne, if_true, if_false]
      exact CFloat.not_lt_trans _ _ _ ha hb hc
    · intro a b ha hb h
      simp only [comparator, ascendingLess, Process.ProcessName, hne, if_true, if_false] at h
      exact CFloat.le_of_not_lt _ _ (hp a ha) (hp b hb) h
  have hdesc : (m.sort column SortOrder.DescendingOrder).processList.Pairwise
      (fun a b => (b.toFloat column).le (a.toFloat column) = true) := by
    rw [sort_processList]
    have hp : ∀ p ∈ stdSort (comparator column SortOrder.DescendingOrder) m.processList,
        p.toFloat column ≠ CFloat.nan :=
      fun p hp => hnan p ((stdSort_perm _ _).mem_iff.1 hp)
    refine (stdSort_sorted (comparator column SortOrder.DescendingOrder)
      (fun p => p.toFloat column ≠ CFloat.nan) ?_ ?_ m.processList hnan).imp_of_mem ?_
    · intro a b _ _
      simp only [comparator, descendingLess, hne, if_false, reduceCtorEq]
      cases h : (a.toFloat column).lt (b.toFloat column)
      · exact Or.inl rfl
      · exact Or.inr (CFloat.lt_asymm _ _ h)
    · intro a b c ha hb hc hab hbc
      simp only [comparator, descendingLess, hne, if_false, reduceCtorEq] at hab hbc ⊢
      exact CFloat.not_lt_trans _ _ _ hc hb ha hbc hab
    · intro a b ha hb h
      simp only [comparator, descendingLess, hne, if_false, reduceCtorEq] at h
      exact CFloat.le_of_not_lt _ _ (hp b hb) (hp a ha) h
  refine ⟨⟨by rw [sort_processList]; exact stdSort_perm _ _, hasc,
    by rw [sort_processList]; exact stdSort_perm _ _, hdesc⟩, ?_⟩
  intro hcol hsmall
  have hexact : ∀ p ∈ m.processList, p.toFloat column = CFloat.finite (p.toUInt column) := by
    intro p hp
    have h := uintToFloat_exact _ (hsmall p hp)
    rcases hcol with rfl | rfl
    · simp only [Process.toFloat, if_true, h]
    · have h3 : Process.MemoryUsage ≠ Process.ID := by decide
      have h4 : Process.MemoryUsage ≠ Process.CPUUsage := by decide
      simp only [Process.toFloat, h3, h4, if_true, if_false, h]
  constructor
  · refine hasc.imp_of_mem ?_
    intro a b ha hb h
    have hperm : (m.sort column SortOrder.AscendingOrder).processList.Perm m.processList := by
      rw [sort_processList]
      exact stdSort_perm _ _
    have ha2 := hperm.mem_iff.1 ha
    have hb2 := hperm.mem_iff.1 hb
    rw [hexact a ha2, hexact b hb2, CFloat.le_finite] at h
    exact_mod_cast h
  · refine hdesc.imp_of_mem ?_
    intro a b ha hb h
    have hperm : (m.sort column SortOrder.DescendingOrder).processList.Perm m.processList := by
      rw [sort_processList]
      exact stdSort_perm _ _
    have ha2 := hperm.mem_iff.1 ha
    have hb2 := hperm.mem_iff.1 hb
    rw [hexact a ha2, hexact b hb2, CFloat.le_finite] at h
    exact_mod_cast h

/-- C1, amended, at the example of the claim: sorting by CPU gives the PIDs
30, 10, 20 ascending and 20, 10, 30 descending. -/
theorem sort_numeric_column_witness :
    ((cpuExample.sort Process.CPUUsage SortOrder.AscendingOrder).processList.map Process.pid
        = [30, 10, 20] ∧
      (cpuExample.sort Process.CPUUsage SortOrder.DescendingOrder).processList.map Process.pid
        = [20, 10, 30]) ∧
    (∀ p ∈ cpuExample.processList, p.toFloat Process.CPUUsage ≠ CFloat.nan) ∧
    (∀ p ∈ cpuExample.processList, p.toFloat Process.ID ≠ CFloat.nan) ∧
    (∀ p ∈ cpuExample.processList, p.toUInt Process.ID < 2 ^ 24) ∧
    ((cpuExample.sort Process.ID SortOrder.AscendingOrder).processList.Pairwise
        (fun a b => a.toUInt Process.ID ≤ b.toUInt Process.ID) ∧
      (cpuExample.sort Process.ID SortOrder.DescendingOrder).processList.Pairwise
        (fun a b => a.toUInt Process.ID ≥ b.toUInt Process.ID)) ∧
    ((cpuExample.sort Process.CPUUsage SortOrder.AscendingOrder).processList.Perm
        cpuExample.processList ∧
      (cpuExample.sort Process.CPUUsage SortOrder.AscendingOrder).processList.Pairwise
        (fun a b => (a.toFloat Process.CPUUsage).le (b.toFloat Process.CPUUsage) = true) ∧
      (cpuExample.sort Process.CPUUsage SortOrder.DescendingOrder).processList.Perm
        cpuExample.processList ∧
      (cpuExample.sort Process.CPUUsage SortOrder.DescendingOrder).processList.Pairwise
        (fun a b => (b.toFloat Process.CPUUsage).le (a.toFloat Process.CPUUsage) = true)) :=
  ⟨by decide, by decide, by decide, by decide,
    (sort_numeric_column cpuExample Process.ID (Or.inl rfl) (by decide)).2 (Or.inl rfl)
      (by decide),
    (sort_numeric_column cpuExample Process.CPUUsage (Or.inr (Or.inl rfl)) (by decide)).1⟩

/-- C4: with the name column as key, two processes whose names are equal up to
letter case are not ordered by the comparator, in either direction and under
either order; and the descending comparator at `(l, r)` is the ascending
comparator at `(r, l)`. -/
theorem name_comparator_case_insensitive (l r : Process) :
    (l.name.toList.map foldCase = r.name.toList.map foldCase →
      ascendingLess Process.ProcessName l r = false ∧
      ascendingLess Process.ProcessName r l = false ∧
      descendingLess Process.ProcessName l r = false ∧
      descendingLess Process.ProcessName r l = false) ∧
    descendingLess Process.ProcessName l r = ascendingLess Process.ProcessName r l := by
  constructor
  · intro h
    have h1 := ucstricmp_eq_zero_of_fold_eq _ _ h
    have h2 := ucstricmp_eq_zero_of_fold_eq _ _ h.symm
    simp only [ascendingLess, descendingLess, compareCaseInsensitive, Process.ProcessName, h1, h2, if_true]
    simp
  · have hs := ucstricmp_swap r.name.toList l.name.toList
    simp only [ascendingLess, descendingLess, compareCaseInsensitive, Process.ProcessName,
      if_true, gt_iff_lt]
    rw [decide_eq_decide]
    exact hs.1.symm

/-- C4, at the names "bash" and "Bash". -/
theorem name_comparator_case_insensitive_witness :
    "bash" ≠ "Bash" ∧
    "bash".toList.map foldCase = "Bash".toList.map foldCase ∧
    ascendingLess Process.ProcessName
      { pid := 1, name := "bash", usage := idle }
      { pid := 2, name := "Bash", usage := idle }
      = false ∧
    ascendingLess Process.ProcessName
      { pid := 2, name := "Bash", usage := idle }
      { pid := 1, name := "bash", usage := idle }
      = false ∧
    descendingLess Process.ProcessName
      { pid := 1, name := "bash", usage := idle }
      { pid := 2, name := "Bash", usage := idle }
      = false ∧
    descendingLess Process.ProcessName
      { pid := 2, name := "Bash", usage := idle }
      { pid := 1, name := "bash", usage := idle }
      = false :=
  ⟨by decide, by decide,
    (name_comparator_case_insensitive
      { pid := 1, name := "bash", usage := idle }
      { pid := 2, name := "Bash", usage := idle }).1
      (by decide)⟩

/-! ## The two loops of `refresh` -/

theorem discover_fresh (os : Os) (es : List String) (m : ProcessTableModel) :
    ∃ fresh : List Int,
      (discover os es m).processList = m.processList ++ fresh.map os.newProcess ∧
      (discover os es m).pidSet = m.pidSet ∪ fresh.toFinset ∧
      fresh.Nodup ∧
      (∀ uid, uid ∈ fresh ↔ uid ∉ m.pidSet ∧ ∃ e ∈ es, toInt e = some uid) ∧
      fresh.Sublist (es.filterMap toInt) ∧
      (discover os es m).sortColumn = m.sortColumn ∧
      (discover os es m).sortOrder = m.sortOrder ∧
      (discover os es m).maxProperty = m.maxProperty ∧
      (discover os es m).emitted = m.emitted ++ fresh.map Event.appended := by
  induction es generalizing m with
  | nil =>
    refine ⟨[], ?_⟩
    simp [discover]
  | cons entry rest ih =>
    cases hparse : toInt entry with
    | none =>
      obtain ⟨fresh, h1, h2, h3, h4, h5, h6, h7, h8, h9⟩ := ih m
      refine ⟨fresh, ?_⟩
      simp only [discover, hparse]
      refine ⟨h1, h2, h3, ?_, ?_, h6, h7, h8, h9⟩
      · intro uid
        rw [h4 uid]
        constructor
        · rintro ⟨hn, e, he, hu⟩
          exact ⟨hn, e, List.mem_cons_of_mem _ he, hu⟩
        · rintro ⟨hn, e, he, hu⟩
          rcases List.mem_cons.1 he with rfl | he
          · rw [hparse] at hu; cases hu
          · exact ⟨hn, e, he, hu⟩
      · rw [List.filterMap_cons_none hparse]
        exact h5
    | some uid =>
      by_cases hmem : uid ∈ m.pidSet
      · obtain ⟨fresh, h1, h2, h3, h4, h5, h6, h7, h8, h9⟩ := ih m
        refine ⟨fresh, ?_⟩
        simp only [discover, hparse, hmem, not_true_eq_false, if_false]
        refine ⟨h1, h2, h3, ?_, ?_, h6, h7, h8, h9⟩
        · intro x
          rw [h4 x]
          constructor
          · rintro ⟨hn, e, he, hu⟩
            exact ⟨hn, e, List.mem_cons_of_mem _ he, hu⟩
          · rintro ⟨hn, e, he, hu⟩
            rcases List.mem_cons.1 he with rfl | he
            · rw [hparse] at hu
              cases hu
              exact absurd hmem hn
            · exact ⟨hn, e, he, hu⟩
        · rw [List.filterMap_cons_some hparse]
          exact h5.trans (List.sublist_cons_self _ _)
      · obtain ⟨fresh, h1, h2, h3, h4, h5, h6, h7, h8, h9⟩ := ih
          ({ m with processList := m.processList ++ [os.newProcess uid],
                    pidSet := insert uid m.pidSet }.emit (Event.appended uid))
        refine ⟨uid :: fresh, ?_⟩
        simp only [discover, hparse, hmem, not_false_eq_true, if_true, ProcessTableModel.emit]
        simp only [ProcessTableModel.emit] at h1 h2 h4 h6 h7 h8 h9
        have hnot : uid ∉ fresh := fun hin => ((h4 uid).1 hin).1 (Finset.mem_insert_self _ _)
        refine ⟨?_, ?_, ?_, ?_, ?_, h6, h7, h8, ?_⟩
        · rw [h1]; simp
        · rw [h2]
          ext x
          simp only [Finset.mem_union, Finset.mem_insert, List.mem_toFinset, List.mem_cons]
          tauto
        · exact List.nodup_cons.2 ⟨hnot, h3⟩
        · intro x
          rw [List.mem_cons, h4 x]
          simp only [Finset.mem_insert, not_or]
          constructor
          · rintro (rfl | ⟨⟨hne, hn⟩, e, he, hu⟩)
            · exact ⟨hmem, entry, List.mem_cons_self _ _, hparse⟩
            · exact ⟨hn, e, List.mem_cons_of_mem _ he, hu⟩
          · rintro ⟨hn, e, he, hu⟩
            by_cases hx : x = uid
            · exact Or.inl hx
            · rcases List.mem_cons.1 he with rfl | he
              · rw [hparse] at hu
                cases hu
                exact absurd rfl hx
              · exact Or.inr ⟨⟨hx, hn⟩, e, he, hu⟩
        · rw [List.filterMap_cons_some hparse]
          exact h5.cons₂ _
        · rw [h9]; simp

theorem sort_eq (column : Int) (order : SortOrder) (m : ProcessTableModel) :
    m.sort column order =
      { m with processList := stdSort (comparator column order) m.processList,
               emitted := m.emitted ++ [Event.layoutAboutToBeChanged, Event.sorted,
                 Event.layoutChanged] } := by
  unfold ProcessTableModel.sort comparator ProcessTableModel.emit
  split_ifs <;> simp

theorem sortByColumn_invalid (column : Int) (order : SortOrder) (m : ProcessTableModel)
    (h : column < 0 ∨ column ≥ Process.PropertyCount) : m.sortByColumn column order = m := by
  unfold ProcessTableModel.sortByColumn
  rw [if_pos h]

theorem sortByColumn_valid (column : Int) (order : SortOrder) (m : ProcessTableModel)
    (h : ¬ (column < 0 ∨ column ≥ Process.PropertyCount)) :
    m.sortByColumn column order =
      { m with sortColumn := column, sortOrder := order,
               processList := stdSort (comparator column order) m.processList,
               emitted := m.emitted ++ [Event.layoutAboutToBeChanged, Event.sorted,
                 Event.layoutChanged] } := by
  unfold ProcessTableModel.sortByColumn
  rw [if_neg h, sort_eq]

theorem removeLoop_emitted (os : Os) (remaining it : Nat) (s s' : Sweep)
    (h : removeLoop os remaining it s = some s') :
    ∃ gone : List Int, s'.emitted = s.emitted ++ gone.map Event.removed := by
  induction remaining generalizing it s with
  | zero =>
    simp only [removeLoop, Option.some.injEq] at h
    subst h
    exact ⟨[], by simp⟩
  | succ remaining ih =>
    simp only [removeLoop] at h
    split at h
    · cases h
    · split at h
      · cases h
      · rename_i process _
        split at h
        · have hkeep := ih _ _ h
          exact hkeep
        · obtain ⟨gone, hg⟩ := ih _ _ h
          exact ⟨process.pid :: gone, by rw [hg]; simp⟩

theorem removeLoop_all_alive (os : Os) (halive : ∀ p, os.resample p ≠ none)
    (remaining it : Nat) (s : Sweep) (hlen : s.list.array.length = it + remaining)
    (hobj : ∀ t ∈ s.list.array, ∃ p, (s.objects[t]?).join = some p) :
    ∃ s', removeLoop os remaining it s = some s' := by
  induction remaining generalizing it s with
  | zero => exact ⟨s, rfl⟩
  | succ remaining ih =>
    have hit : it < s.list.array.length := by omega
    have hget : s.list.array[it]? = some s.list.array[it] := List.getElem?_eq_getElem hit
    obtain ⟨process, hp⟩ := hobj _ (List.getElem_mem hit)
    cases hre : os.resample process with
    | none => exact absurd hre (halive process)
    | some usage =>
      simp only [removeLoop, hget, hp, hre]
      refine ih (it + 1) _ (by simp only; omega) ?_
      intro t ht
      simp only [List.getElem?_set]
      by_cases heq : s.list.array[it] = t
      · have hlt : s.list.array[it] < s.objects.length := by
          by_contra hge
          rw [List.getElem?_eq_none (by omega)] at hp
          simp at hp
        rw [if_pos heq, if_pos hlt]
        exact ⟨_, rfl⟩
      · rw [if_neg heq]
        exact hobj t ht

theorem start_objects (m : ProcessTableModel) :
    ∀ t ∈ (Sweep.start m).list.array, ∃ p, ((Sweep.start m).objects[t]?).join = some p := by
  intro t ht
  simp only [Sweep.start, List.mem_range] at ht
  refine ⟨m.processList[t], ?_⟩
  simp only [Sweep.start, List.getElem?_map, List.getElem?_eq_getElem ht]
  rfl

theorem refresh_eq_some (os : Os) (m m' : ProcessTableModel) (h : m.refresh os = some m') :
    ∃ s, removeLoop os
        (discover os os.entries (m.emit Event.layoutAboutToBeChanged)).processList.length 0
        (Sweep.start (discover os os.entries (m.emit Event.layoutAboutToBeChanged))) = some s ∧
      m' = (({ discover os os.entries (m.emit Event.layoutAboutToBeChanged) with
                processList := s.processList, pidSet := s.pidSet,
                emitted := s.emitted }).sortByColumn
              (discover os os.entries (m.emit Event.layoutAboutToBeChanged)).sortColumn
              (discover os os.entries (m.emit Event.layoutAboutToBeChanged)).sortOrder).emit
            Event.layoutChanged := by
  unfold ProcessTableModel.refresh at h
  simp only at h
  split at h
  · cases h
  · rename_i s hs
    simp only [Option.some.injEq] at h
    exact ⟨s, hs, h.symm⟩

/-! ## The registry -/

theorem construct_tickAllAlive : ProcessTableModel.construct tickAllAlive = some sixTracked := by
  have h : ∃ m ∈ ProcessTableModel.construct tickAllAlive,
      m.processList = sixTracked.processList ∧ m.pidSet = sixTracked.pidSet ∧
      m.sortColumn = sixTracked.sortColumn ∧ m.sortOrder = sixTracked.sortOrder ∧
      m.maxProperty = sixTracked.maxProperty ∧ m.emitted = sixTracked.emitted := by
    decide
  obtain ⟨m, hm, h1, h2, h3, h4, h5, h6⟩ := h
  rw [Option.mem_def] at hm
  rw [hm]
  cases m
  simp only at h1 h2 h3 h4 h5 h6
  subst h1 h2 h3 h4 h5 h6
  rfl

/-- The second loop on the registry of the processes 1 to 6. When 5 and 6 are
gone, 6 is skipped at first and then found in the stale last position, so
both are removed; when 1 and 2 are gone, the front of the array moves and
nothing is skipped. -/
theorem refresh_stale_slot_and_front :
    (∃ m ∈ sixTracked.refresh tickFiveSixGone,
      m.processList.map Process.pid = [1, 2, 3, 4] ∧ m.pidSet = {1, 2, 3, 4}) ∧
    (∃ m ∈ sixTracked.refresh tickOneTwoGone,
      m.processList.map Process.pid = [3, 4, 5, 6] ∧ m.pidSet = {3, 4, 5, 6}) := by
  decide

/-- C2: at a refresh in which the processes 4 and 5, neighbours in `processList`,
are both reported gone, process 5 is still in `processList` afterwards, and its
PID is still in `pidSet`. -/
theorem refresh_keeps_gone_neighbour :
    ProcessTableModel.construct tickAllAlive = some sixTracked ∧
    sixTracked.processList.map Process.pid = [1, 2, 3, 4, 5, 6] ∧
    ∃ m ∈ sixTracked.refresh tickTwoGone,
      m.processList.map Process.pid = [1, 2, 3, 5, 6] ∧
      m.pidSet = {1, 2, 3, 5, 6} ∧
      ∃ p ∈ m.processList, tickTwoGone.resample p = none ∧ p.pid ∈ m.pidSet :=
  ⟨construct_tickAllAlive, by decide, by decide⟩

/-- C3: the discovery loop appends, after the processes already tracked, one new
process for every PID of a list `fresh`, and adds these PIDs to `pidSet`;
`fresh` has no repetition, follows the order of the enumeration, and holds
exactly the PIDs that some entry name parses to and that were not in `pidSet`.
Nothing else of the state changes. -/
theorem discover_appends_new (os : Os) (m : ProcessTableModel) :
    ∃ fresh : List Int,
      (discover os os.entries m).processList = m.processList ++ fresh.map os.newProcess ∧
      (discover os os.entries m).pidSet = m.pidSet ∪ fresh.toFinset ∧
      fresh.Nodup ∧
      (∀ uid, uid ∈ fresh ↔ uid ∉ m.pidSet ∧ ∃ e ∈ os.entries, toInt e = some uid) ∧
      fresh.Sublist (os.entries.filterMap toInt) ∧
      (∀ uid, (os.newProcess uid).pid = uid) ∧
      (discover os os.entries m).sortColumn = m.sortColumn ∧
      (discover os os.entries m).sortOrder = m.sortOrder := by
  obtain ⟨fresh, h1, h2, h3, h4, h5, h6, h7, -⟩ := discover_fresh os os.entries m
  exact ⟨fresh, h1, h2, h3, h4, h5, fun _ => rfl, h6, h7⟩

/-- C5: the registry of the processes 1 to 6 satisfies the invariant, and its
refresh at a tick where 4 and 6 are gone has no defined outcome: after 4 is
removed, the iterator reaches 6 in the last position of the list, removes and
deletes it, and then reads the pointer to 6 once more from the position behind
the list. -/
theorem refresh_reads_deleted_process :
    ProcessTableModel.construct tickAllAlive = some sixTracked ∧
    Invariant sixTracked ∧
    sixTracked.refresh tickFourSixGone = none :=
  ⟨construct_tickAllAlive, by decide, by decide⟩

/-- C6: the registry of the processes 1 to 6 with the valid sort key (PID,
ascending) is refreshed at a tick where 4 and 6 are gone: `refresh` does not
return, it dereferences the deleted process 6. -/
theorem refresh_with_key_reads_deleted_process :
    (sixTracked.sortByColumn Process.ID SortOrder.AscendingOrder).sortColumn = Process.ID ∧
    (0 ≤ Process.ID ∧ Process.ID < Process.PropertyCount) ∧
    (sixTracked.sortByColumn Process.ID SortOrder.AscendingOrder).processList.map Process.pid
      = [1, 2, 3, 4, 5, 6] ∧
    (sixTracked.sortByColumn Process.ID SortOrder.AscendingOrder).refresh tickFourSixGone
      = none := by
  decide

/-- C7: a construction during which the processes 4 and 6 exit between the
enumeration and their first re-sample has no defined outcome, and neither has
a refresh of the registry of the processes 1 to 6, no key selected, at a tick
where 4 and 6 are gone. -/
theorem construct_reads_deleted_process :
    ProcessTableModel.construct tickVanishing = none ∧
    sixTracked.sortColumn = -1 ∧
    sixTracked.refresh tickFourSixGone = none := by
  decide

/-- C9, as stated, fails: a `refresh` of a registry with the valid sort key
(CPU, descending) emits four layout signals, two of each kind, nested. -/
theorem refresh_emits_nested_pair :
    ∃ m ∈ (sixTracked.sortByColumn Process.CPUUsage SortOrder.DescendingOrder).refresh
        tickAllAlive,
      signalsBetween (sixTracked.sortByColumn Process.CPUUsage SortOrder.DescendingOrder) m
        = [Event.layoutAboutToBeChanged, Event.layoutAboutToBeChanged,
           Event.layoutChanged, Event.layoutChanged] ∧
      signalsBetween (sixTracked.sortByColumn Process.CPUUsage SortOrder.DescendingOrder) m
        ≠ [Event.layoutAboutToBeChanged, Event.layoutChanged] := by
  decide

/-- C9, amended: a `refresh` that returns has emitted `layoutAboutToBeChanged`
first, then changed the tracked set (`changes` holds no signal), then, only
when the sort column is valid, let `sort` emit a `layoutAboutToBeChanged` and a
`layoutChanged` of its own around the re-sort, and emitted `layoutChanged`
last. A `refresh` at which no process is reported gone returns. -/
theorem refresh_notifications (os : Os) (m : ProcessTableModel) :
    (∀ m', m.refresh os = some m' →
      ∃ changes : List Event,
        (∀ e ∈ changes, e.isSignal = false ∧ e ≠ Event.sorted) ∧
        m'.emitted =
          m.emitted ++ [Event.layoutAboutToBeChanged] ++ changes ++
            (if m.sortColumn < 0 ∨ m.sortColumn ≥ Process.PropertyCount then []
             else [Event.layoutAboutToBeChanged, Event.sorted, Event.layoutChanged]) ++
            [Event.layoutChanged]) ∧
    ((∀ p, os.resample p ≠ none) → ∃ m', m.refresh os = some m') := by
  constructor
  · intro m' h
    obtain ⟨s, hs, rfl⟩ := refresh_eq_some os m m' h
    obtain ⟨fresh, -, -, -, -, -, h6, -, -, h9⟩ :=
      discover_fresh os os.entries (m.emit Event.layoutAboutToBeChanged)
    obtain ⟨gone, hg⟩ := removeLoop_emitted os _ _ _ _ hs
    refine ⟨fresh.map Event.appended ++ gone.map Event.removed, ?_, ?_⟩
    · intro e he
      rcases List.mem_append.1 he with h | h
      · obtain ⟨uid, -, rfl⟩ := List.mem_map.1 h
        exact ⟨rfl, by simp⟩
      · obtain ⟨uid, -, rfl⟩ := List.mem_map.1 h
        exact ⟨rfl, by simp⟩
    · have hstart : (Sweep.start
          (discover os os.entries (m.emit Event.layoutAboutToBeChanged))).emitted =
          (discover os os.entries (m.emit Event.layoutAboutToBeChanged)).emitted := rfl
      rw [hstart, h9] at hg
      simp only [ProcessTableModel.emit] at hg
      have hcol : (discover os os.entries (m.emit Event.layoutAboutToBeChanged)).sortColumn =
          m.sortColumn := h6
      rw [hcol]
      by_cases hv : m.sortColumn < 0 ∨ m.sortColumn ≥ Process.PropertyCount
      · rw [sortByColumn_invalid _ _ _ hv, if_pos hv]
        simp only [ProcessTableModel.emit, hg]
        simp
      · rw [sortByColumn_valid _ _ _ hv, if_neg hv]
        simp only [ProcessTableModel.emit, hg]
        simp
  · intro halive
    obtain ⟨s, hs⟩ := removeLoop_all_alive os halive
      (discover os os.entries (m.emit Event.layoutAboutToBeChanged)).processList.length 0
      (Sweep.start (discover os os.entries (m.emit Event.layoutAboutToBeChanged)))
      (by simp [Sweep.start]) (start_objects _)
    unfold ProcessTableModel.refresh
    simp only [hs]
    exact ⟨_, rfl⟩

/-- C9, amended, at the registry of the processes 1 to 6: its refresh returns
when all processes exist, and the refresh at which 4 and 5 are gone returns
with the events in the stated order. -/
theorem refresh_notifications_witness :
    (∀ p, tickAllAlive.resample p ≠ none) ∧
    (∃ m', sixTracked.refresh tickAllAlive = some m') ∧
    (∃ m', sixTracked.refresh tickTwoGone = some m' ∧
      ∃ changes : List Event,
        (∀ e ∈ changes, e.isSignal = false ∧ e ≠ Event.sorted) ∧
        m'.emitted =
          sixTracked.emitted ++ [Event.layoutAboutToBeChanged] ++ changes ++
            (if sixTracked.sortColumn < 0 ∨ sixTracked.sortColumn ≥ Process.PropertyCount
             then []
             else [Event.layoutAboutToBeChanged, Event.sorted, Event.layoutChanged]) ++
            [Event.layoutChanged]) := by
  have halive : ∀ p, tickAllAlive.resample p ≠ none := fun p => by simp [tickAllAlive]
  obtain ⟨m', h⟩ := Option.isSome_iff_exists.1
    (show (sixTracked.refresh tickTwoGone).isSome = true by decide)
  exact ⟨halive, (refresh_notifications tickAllAlive sixTracked).2 halive,
    m', h, (refresh_notifications tickTwoGone sixTracked).1 m' h⟩

/-! ## Cell text and static information -/

/-- C10: for 1536 kilobytes the memory cell reads "1.0 MB", where the quotient
rounded to one decimal place reads "1.5 MB". -/
theorem memoryText_truncates :
    memoryText 1536 = "1.0 MB" ∧ memoryTextSpec 1536 = "1.5 MB" ∧
    memoryText 1536 ≠ memoryTextSpec 1536 := by
  decide

/-- C8: on a text without a `model name` line, and on one whose model name has
no " @ ", `setupStaticInformation` calls `modelName.at(1)` on a list of one
element. -/
theorem setupStaticInformation_out_of_range :
    split " @ " (captured1 "model name\t: " "".toList) = [[]] ∧
    setupStaticInformation "" = none ∧
    split " @ " (captured1 "model name\t: "
      "model name\t: AMD Ryzen 5 3600\ncpu cores\t: 6\nsiblings\t: 12\n".toList)
      = ["AMD Ryzen 5 3600".toList] ∧
    setupStaticInformation "model name\t: AMD Ryzen 5 3600\ncpu cores\t: 6\nsiblings\t: 12\n"
      = none ∧
    setupStaticInformation
      "model name\t: Intel(R) Core(TM) i5 CPU @ 2.30GHz\ncpu cores\t: 2\nsiblings\t: 4\n"
      = some { cpuName := "Intel(R) Core(TM) i5 CPU".toList, maxSpeed := "2.30GHz".toList,
               cores := "2".toList, logicalProcessors := "4".toList } := by
  decide

end TaskManager
